import Mathlib

/-!
# PyRPG — verified model of the action-resolution core

A shallow embedding, in Lean 4, of the action/consumable/turn-scheduling core
of the PyRPG roguelike (files `actions.py`, `engine.py`,
`components/consumable.py`).  Pure fragments of the Python become Lean
functions; mutation is made explicit by returning the post-state; a raised
`Impossible(msg)` exception becomes an `Option String` component of the
result (`some msg` = the exception was raised, with every mutation that
happened before the raise kept, exactly as in Python).

Python compares Euclidean distances as floats (`math.sqrt`).  Every such
comparison in the source is between square roots of nonnegative integers or
against an integer-valued threshold, so the embedding carries *squared*
distances and translates each comparison exactly:
`sqrt d2 < sqrt b2 ↔ d2 < b2`, `sqrt d2 < c ↔ 0 < c ∧ d2 < c^2`, and
`sqrt d2 ≤ c ↔ 0 ≤ c ∧ d2 ≤ c^2` (distances are sqrt of sums of squares of
integers, hence nonnegative).
-/

set_option autoImplicit false

namespace PyRPG

/-- Modelled from the spec: `Entity.distance` (entity.py is not among the
sources) is the Euclidean distance, "strictly-closest by Euclidean distance"
/ "squared-distance comparison".  This is its square, the form every
comparison is carried in. -/
def dist2 (ax ay bx byy : Int) : Int :=
  (ax - bx) ^ 2 + (ay - byy) ^ 2

/-! ## Movement (`MovementAction.perform`, actions.py 132-168) -/

/-- The world queries `MovementAction.perform` consults: `GameMap.in_bounds`,
`GameMap.tiles["walkable"]`, and whether `get_blocking_entity_at_location`
returns an entity. -/
structure MoveEnv where
  inBounds : Int → Int → Bool
  walkable : Int → Int → Bool
  blocked : Int → Int → Bool

/-- The fields of the moving actor that `MovementAction.perform` reads and
writes: position, the speed-boost flag and its remaining-turn counter. -/
structure Mover where
  x : Int
  y : Int
  isSpeeded : Bool
  speedTurnsRemaining : Int
  deriving DecidableEq, Repr

/-- The `blocked` test of one candidate step (actions.py 143-147): destination
out of bounds, or not walkable, or occupied by a blocking entity. -/
def stepBlocked (env : MoveEnv) (m : Mover) (dx dy : Int) (step : Nat) : Bool :=
  let destX := m.x + dx * (step : Int)
  let destY := m.y + dy * (step : Int)
  !env.inBounds destX destY || !env.walkable destX destY || env.blocked destX destY

/-- The `for step in range(1, speed+1)` scan (actions.py 137-151): advance the
accumulator to each unblocked step, `break` at the first blocked one. -/
def scanSteps (env : MoveEnv) (m : Mover) (dx dy : Int) : List Nat → Nat → Nat
  | [], acc => acc
  | step :: rest, acc =>
    if stepBlocked env m dx dy step then acc
    else scanSteps env m dx dy rest step

/-- `max_valid_step` after the scan over steps `1 .. speed`. -/
def maxValidStep (env : MoveEnv) (m : Mover) (dx dy : Int) (speed : Nat) : Nat :=
  scanSteps env m dx dy ((List.range speed).map (· + 1)) 0

/-- `MovementAction.perform` (actions.py 132-168).  `speed` is 2 when the
speed boost is active, else 1; a zero `max_valid_step` raises
`Impossible("That way is blocked.")`; otherwise the actor moves by
`(dx, dy) * max_valid_step` and, when the boost is active, its counter is
decremented, clearing the flag at zero. -/
def movementPerform (env : MoveEnv) (m : Mover) (dx dy : Int) :
    Mover × Option String :=
  let speed : Nat := if m.isSpeeded then 2 else 1
  let mvs := maxValidStep env m dx dy speed
  if mvs = 0 then
    (m, some "That way is blocked.")
  else
    let moved : Mover := { m with x := m.x + dx * (mvs : Int), y := m.y + dy * (mvs : Int) }
    let post : Mover :=
      if moved.isSpeeded then
        let remaining := moved.speedTurnsRemaining - 1
        if remaining ≤ 0 then
          { moved with speedTurnsRemaining := remaining, isSpeeded := false }
        else
          { moved with speedTurnsRemaining := remaining }
      else moved
    (post, none)

/-! ## Fighters and damage

`components/fighter.py` is not among the sources; its hp discipline is
modelled from the spec. -/

/-- Modelled from the spec: the `Fighter.hp` property setter
(components/fighter.py, absent from the sources): "hp (0..max_hp, invariant:
never negative, clamped on damage/heal)" - assigning `v` stores
`max 0 (min v maxHp)`. -/
def setHp (v maxHp : Int) : Int := max 0 (min v maxHp)

/-- An actor as the consumable layer sees it: identity (`id()` in Python,
here a tag kept unique), position, and its fighter's hp. -/
structure GActor where
  id : Nat
  x : Int
  y : Int
  hp : Int
  maxHp : Int
  deriving DecidableEq, Repr

/-- Modelled from the spec: `Fighter.take_damage` (components/fighter.py,
absent from the sources) lowers hp by `damage` through the clamping setter. -/
def takeDamage (damage : Int) (a : GActor) : GActor :=
  { a with hp := setHp (a.hp - damage) a.maxHp }

/-! ## Lightning (`LightningDamageConsumable.activate`, consumable.py 64-90) -/

/-- The comparison `distance < closest_distance` of the selection loop
(consumable.py 73), against the state `(target, closest_distance)` - `none`
being the initial state, whose `closest_distance` is `maximum_range + 1.0`.
Python compares float Euclidean distances; carrying squared distances,
`sqrt d2 < maximum_range + 1` is exactly
`0 < maximumRange + 1 ∧ d2 < (maximumRange + 1)^2`, and `sqrt d2 < sqrt b2`
is exactly `d2 < b2`. -/
def strikesCloser (maximumRange : Int) (st : Option (GActor × Int))
    (d2 : Int) : Bool :=
  match st with
  | none => decide (0 < maximumRange + 1 ∧ d2 < (maximumRange + 1) ^ 2)
  | some (_, b2) => decide (d2 < b2)

/-- The target-selection loop of `LightningDamageConsumable.activate`
(consumable.py 69-75): skip the consumer and actors on unseen tiles; adopt an
actor as target exactly when its distance beats the current closest. -/
def lightningLoop (consumer : GActor) (vis : Int → Int → Bool)
    (maximumRange : Int) : List GActor → Option (GActor × Int) → Option (GActor × Int)
  | [], st => st
  | actor :: rest, st =>
    if actor.id ≠ consumer.id ∧ vis actor.x actor.y = true then
      let d2 := dist2 consumer.x consumer.y actor.x actor.y
      if strikesCloser maximumRange st d2 then
        lightningLoop consumer vis maximumRange rest (some (actor, d2))
      else lightningLoop consumer vis maximumRange rest st
    else lightningLoop consumer vis maximumRange rest st

/-- `LightningDamageConsumable.activate` (consumable.py 64-90): run the
selection loop over the map's actors; strike the selected target with
`take_damage` (the struck actor is returned as the middle component, standing
for the log message and the lightning-effect descriptor aimed at it), or raise
`Impossible` when no target was selected.  `a.id = target.id` plays Python
object identity. -/
def lightningActivate (damage maximumRange : Int) (consumer : GActor)
    (vis : Int → Int → Bool) (actors : List GActor) :
    List GActor × Option GActor × Option String :=
  match lightningLoop consumer vis maximumRange actors none with
  | some (target, _) =>
    (actors.map fun a => if a.id = target.id then takeDamage damage a else a,
     some target, none)
  | none => (actors, none, some "No enemy is close enough to strike.")

/-- Eligibility of an actor for the lightning strike, as the code defines it:
not the consumer, on a visible tile, and Euclidean distance strictly below
`maximum_range + 1` (in squared form). -/
abbrev lightningEligible (consumer : GActor) (vis : Int → Int → Bool)
    (maximumRange : Int) (a : GActor) : Prop :=
  a.id ≠ consumer.id ∧ vis a.x a.y = true ∧
    dist2 consumer.x consumer.y a.x a.y < (maximumRange + 1) ^ 2

/-! ## Confusion and hypnosis (consumable.py 104-127 and 131-151) -/

/-- AI strategies: hostile, or a timed overlay wrapping the previous one. -/
inductive AiKind where
  | hostile
  | confused (previous : AiKind) (turnsRemaining : Int)
  | hypnotized (previous : AiKind) (turnsRemaining : Int)
  deriving DecidableEq, Repr

/-- An actor as the targeting scrolls see it: identity and current AI. -/
structure CActor where
  id : Nat
  ai : AiKind
  deriving DecidableEq, Repr

/-- Outcome of a targeted scroll activation: the target's newly assigned AI
(tagged with its id) when the effect landed, the post inventory, and the
raised `Impossible` message if any. -/
structure TargetingOutcome where
  newAi : Option (Nat × AiKind)
  inventory : List Nat
  err : Option String
  deriving DecidableEq, Repr

/-- Python `target is consumer`: identity comparison, `false` when `target`
is `None`. -/
def isSameActor (target? : Option CActor) (consumer : CActor) : Bool :=
  match target? with
  | some t => t.id == consumer.id
  | none => false

/-- `ConfusionConsumable.activate` (consumable.py 104-127): checks, in order,
that the target tile is visible, that the target is not the consumer, and
that a target actor exists; then wraps the target's AI and consumes the item
(`Inventory.items.remove`, first occurrence). -/
def confusionActivate (numberOfTurns : Int) (consumer : CActor)
    (targetActor : Option CActor) (vis : Int → Int → Bool) (tx ty : Int)
    (inv : List Nat) (itemId : Nat) : TargetingOutcome :=
  if !vis tx ty then
    ⟨none, inv, some "You cannot target an area that you cannot see."⟩
  else if isSameActor targetActor consumer then
    ⟨none, inv, some "You cannot confuse yourself!"⟩
  else
    match targetActor with
    | none => ⟨none, inv, some "You must select an enemy to target."⟩
    | some t => ⟨some (t.id, .confused t.ai numberOfTurns), inv.erase itemId, none⟩

/-- `HypnotizingConsumable.activate` (consumable.py 131-151): same three
checks in the same order, distinct self-target message, hypnotized overlay. -/
def hypnotizingActivate (numberOfTurns : Int) (consumer : CActor)
    (targetActor : Option CActor) (vis : Int → Int → Bool) (tx ty : Int)
    (inv : List Nat) (itemId : Nat) : TargetingOutcome :=
  if !vis tx ty then
    ⟨none, inv, some "You cannot target an area that you cannot see."⟩
  else if isSameActor targetActor consumer then
    ⟨none, inv, some "You cannot hypnotize yourself!"⟩
  else
    match targetActor with
    | none => ⟨none, inv, some "You must select an enemy to target."⟩
    | some t => ⟨some (t.id, .hypnotized t.ai numberOfTurns), inv.erase itemId, none⟩

/-! ## Fireball (`FireballDamageConsumable.activate`, consumable.py 168-199) -/

/-- Python `range lo hi` over integers. -/
def intRange (lo hi : Int) : List Int :=
  (List.range (hi - lo).toNat).map fun i => lo + (i : Int)

/-- The affected-tile collection (consumable.py 184-190): every in-bounds tile
of the bounding box whose squared distance to the target tile is at most
`radius^2` (the source squares `abs` values, kept here verbatim). -/
def affectedTilesFor (radius : Int) (inBounds : Int → Int → Bool) (tx ty : Int) :
    List (Int × Int) :=
  (intRange (tx - radius) (tx + radius + 1)).flatMap fun cx =>
    (intRange (ty - radius) (ty + radius + 1)).filterMap fun cy =>
      if inBounds cx cy ∧ |cx - tx| ^ 2 + |cy - ty| ^ 2 ≤ radius ^ 2 then
        some (cx, cy)
      else none

/-- The world state `FireballDamageConsumable.activate` touches: the map's
actors, the owning inventory (item ids), and the engine's
`fireball_effect` slot (its tile list; frames and color are constants). -/
structure FireballState where
  actors : List GActor
  inventory : List Nat
  fireballFx : Option (List (Int × Int))
  deriving DecidableEq, Repr

/-- `actor.distance(*target_xy) <= self.radius` (consumable.py 177): float
`sqrt d2 ≤ radius` is exactly `0 ≤ radius ∧ d2 ≤ radius^2`. -/
def fireballInRange (radius tx ty : Int) (a : GActor) : Bool :=
  decide (0 ≤ radius ∧ dist2 a.x a.y tx ty ≤ radius ^ 2)

/-- `FireballDamageConsumable.activate` (consumable.py 168-199): visibility
check; one pass damaging every actor in range (recording whether any was
hit); affected-tile collection; the `fireball_effect` slot set whenever that
list is nonempty; `Impossible` if no actor was hit (the mutations made so far
kept, the item not consumed); otherwise consume. -/
def fireballActivate (damage radius : Int) (vis inBounds : Int → Int → Bool)
    (tx ty : Int) (itemId : Nat) (st : FireballState) :
    FireballState × Option String :=
  if !vis tx ty then
    (st, some "You cannot target an area that you cannot see.")
  else
    let newActors := st.actors.map fun a =>
      if fireballInRange radius tx ty a then takeDamage damage a else a
    let targetsHit := st.actors.any (fireballInRange radius tx ty)
    let affected := affectedTilesFor radius inBounds tx ty
    let st1 : FireballState :=
      { st with
        actors := newActors
        fireballFx := if affected.isEmpty then st.fireballFx else some affected }
    if !targetsHit then
      (st1, some "There are no targets in the radius.")
    else
      ({ st1 with inventory := st1.inventory.erase itemId }, none)

/-! ## Pickup (`PickupAction.perform`, actions.py 57-74) -/

/-- An item placed on the map: identity and position. -/
structure PItem where
  id : Nat
  x : Int
  y : Int
  deriving DecidableEq, Repr

/-- The state `PickupAction.perform` touches: the map's items in iteration
order, the actor's inventory (item ids, in order), and its capacity. -/
structure PickupState where
  mapItems : List PItem
  invItems : List Nat
  capacity : Nat
  deriving DecidableEq, Repr

/-- `PickupAction.perform` (actions.py 57-74): scan `game_map.items` for the
first item at the actor's exact tile; on a full inventory raise `Impossible`;
otherwise remove that item from the map (`entities.remove(item)`, modelled as
erasing the first equal element - ids are unique) and append it to the
inventory; with no matching item raise `Impossible`. -/
def pickupPerform (ax ay : Int) (st : PickupState) : PickupState × Option String :=
  match st.mapItems.find? (fun it => decide (ax = it.x) && decide (ay = it.y)) with
  | some item =>
    if st.invItems.length ≥ st.capacity then
      (st, some "Your inventory is full.")
    else
      ({ st with
          mapItems := st.mapItems.erase item
          invItems := st.invItems ++ [item.id] }, none)
  | none => (st, some "There is nothing here to pick up.")

/-! ## Melee (`MeleeAction.perform`, actions.py 107-129) -/

/-- The two combat log messages (the source formats them with the actor
names; only their kind and the damage figure matter here). -/
inductive CombatMsg where
  | hit (damage : Int)
  | noDamage
  deriving DecidableEq, Repr

/-- The fighter fields `MeleeAction.perform` reads and writes. -/
structure MFighter where
  hp : Int
  maxHp : Int
  power : Int
  defense : Int
  deriving DecidableEq, Repr

/-- `MeleeAction.perform` (actions.py 107-129): no target actor at the
destination raises `Impossible`; otherwise damage is power minus defense,
applied through the hp setter when positive (with a hit message), and a
no-damage message otherwise. -/
def meleePerform (attacker : MFighter) (target? : Option MFighter) :
    Option MFighter × List CombatMsg × Option String :=
  match target? with
  | none => (none, [], some "Nothing to attack.")
  | some target =>
    let damage := attacker.power - target.defense
    if damage > 0 then
      (some { target with hp := setHp (target.hp - damage) target.maxHp },
       [.hit damage], none)
    else
      (some target, [.noDamage], none)

/-! ## Speed scroll (`SpeedScroll.activate`, consumable.py 204-215) -/

/-- The consumer fields `SpeedScroll.activate` reads and writes. -/
structure SpeedActor where
  isSpeeded : Bool
  speedTurnsRemaining : Int
  deriving DecidableEq, Repr

/-- `SpeedScroll.activate` (consumable.py 204-215): an already active boost
raises `Impossible` (nothing written, nothing consumed); otherwise the boost
is activated with the scroll's number of turns and the item consumed. -/
def speedScrollActivate (numberOfTurns : Int) (consumer : SpeedActor)
    (inv : List Nat) (itemId : Nat) : SpeedActor × List Nat × Option String :=
  if consumer.isSpeeded then
    (consumer, inv, some "You are already under the effect of a speed scroll.")
  else
    ({ isSpeeded := true, speedTurnsRemaining := numberOfTurns },
     inv.erase itemId, none)

/-! ## Enemy turn loop (`Engine.handle_enemy_turns`, engine.py 29-35) -/

/-- The two tiers of the exception taxonomy: `exceptions.Impossible`, and
every other exception class. -/
inductive PyExc where
  | impossible (msg : String)
  | other (msg : String)
  deriving DecidableEq, Repr

/-- What one actor's `ai.perform()` would do: act (producing an observable
effect, tagged by a number), or raise. -/
inductive AiOutcome where
  | acts (effect : Nat)
  | raises (e : PyExc)
  deriving DecidableEq, Repr

/-- An actor as the turn loop sees it: identity and its AI (`none` when the
actor has no AI and is skipped). -/
structure EActor where
  id : Nat
  ai : Option AiOutcome
  deriving DecidableEq, Repr

/-- `Engine.handle_enemy_turns` (engine.py 29-35) over an enumeration of the
non-player actors: each actor with an AI performs; `except
exceptions.Impossible: pass` swallows exactly `Impossible`, any other
exception propagates at once, aborting the remaining iteration.  Returns the
effects of the actors that acted, in order, and the propagated exception if
any. -/
def handleEnemyTurns : List EActor → List Nat × Option PyExc
  | [] => ([], none)
  | a :: rest =>
    match a.ai with
    | none => handleEnemyTurns rest
    | some (.acts effect) =>
      let r := handleEnemyTurns rest
      (effect :: r.1, r.2)
    | some (.raises (.impossible _)) => handleEnemyTurns rest
    | some (.raises (.other m)) => ([], some (.other m))

/-- The enumeration `handle_enemy_turns` actually loops over is
`set(self.game_map.actors) - {self.player}` (engine.py 30).  A CPython set
iterates in an order determined by its elements' hash values - for these
objects their addresses - not by the registry order; the embedding makes that
hidden input explicit as `setOrder`, the permutation of the registry the set
happens to yield.  The result is the sequence of actor ids whose AI gets
invoked, in order. -/
def enemyTurnOrder (registry : List EActor) (playerId : Nat)
    (setOrder : List EActor → List EActor) : List Nat :=
  ((setOrder registry).filter (fun a => a.id ≠ playerId)).map EActor.id

/-- The effects the actors of an enumeration would produce were every one of
them to act (specification-side companion of `handleEnemyTurns`). -/
def aiEffects (l : List EActor) : List Nat :=
  l.filterMap fun a =>
    match a.ai with
    | some (.acts e) => some e
    | _ => none

/-- Whether an actor's AI would raise something other than `Impossible`
(specification-side companion of `handleEnemyTurns`). -/
def raisesOther (a : EActor) : Bool :=
  match a.ai with
  | some (.raises (.other _)) => true
  | _ => false

/-! ## Theorems -/

/-- C8: a second speed scroll before expiry raises `Impossible`, resets
nothing and is not consumed; on a consumer without an active boost the boost
is activated with the scroll's number of turns and the item is consumed. -/
theorem speed_scroll_characterization (numberOfTurns : Int)
    (consumer : SpeedActor) (inv : List Nat) (itemId : Nat)
    (hmem : itemId ∈ inv) :
    (consumer.isSpeeded = true →
      speedScrollActivate numberOfTurns consumer inv itemId =
        (consumer, inv,
          some "You are already under the effect of a speed scroll.")) ∧
    (consumer.isSpeeded = false →
      (speedScrollActivate numberOfTurns consumer inv itemId).1 =
          { isSpeeded := true, speedTurnsRemaining := numberOfTurns } ∧
        (speedScrollActivate numberOfTurns consumer inv itemId).2.1.length + 1 =
          inv.length ∧
        (speedScrollActivate numberOfTurns consumer inv itemId).2.2 = none) := by
  constructor
  · intro h
    simp [speedScrollActivate, h]
  · intro h
    have h1 := List.length_erase_of_mem hmem
    have h2 : 0 < inv.length := List.length_pos_of_mem hmem
    refine ⟨by simp [speedScrollActivate, h], ?_, by simp [speedScrollActivate, h]⟩
    simp only [speedScrollActivate, h, Bool.false_eq_true, if_false]
    omega

/-- Witness for `speed_scroll_characterization` at a concrete input. -/
theorem speed_scroll_characterization_witness :
    (speedScrollActivate 20 ⟨false, 0⟩ [7] 7).1 =
        ({ isSpeeded := true, speedTurnsRemaining := 20 } : SpeedActor) ∧
      (speedScrollActivate 20 ⟨false, 0⟩ [7] 7).2.1.length + 1 = 1 := by
  have h := speed_scroll_characterization 20 ⟨false, 0⟩ [7] 7 (by decide)
  exact ⟨(h.2 rfl).1, (h.2 rfl).2.1⟩

/-- C6: confusion and hypnosis run their three failure checks in the strict
order {target tile not visible, target is the consumer, no target actor},
each with its own `Impossible` message; in particular an unseen tile holding
the consumer itself yields the not-visible message, not the self-target
one. -/
theorem confusion_hypnosis_check_order (numberOfTurns : Int) (consumer : CActor)
    (targetActor : Option CActor) (vis : Int → Int → Bool) (tx ty : Int)
    (inv : List Nat) (itemId : Nat) :
    (vis tx ty = false →
      (confusionActivate numberOfTurns consumer targetActor vis tx ty inv itemId).err =
          some "You cannot target an area that you cannot see." ∧
        (hypnotizingActivate numberOfTurns consumer targetActor vis tx ty inv itemId).err =
          some "You cannot target an area that you cannot see.") ∧
    (vis tx ty = true → isSameActor targetActor consumer = true →
      (confusionActivate numberOfTurns consumer targetActor vis tx ty inv itemId).err =
          some "You cannot confuse yourself!" ∧
        (hypnotizingActivate numberOfTurns consumer targetActor vis tx ty inv itemId).err =
          some "You cannot hypnotize yourself!") ∧
    (vis tx ty = true → targetActor = none →
      (confusionActivate numberOfTurns consumer targetActor vis tx ty inv itemId).err =
          some "You must select an enemy to target." ∧
        (hypnotizingActivate numberOfTurns consumer targetActor vis tx ty inv itemId).err =
          some "You must select an enemy to target.") := by
  refine ⟨fun hv => ?_, fun hv hs => ?_, fun hv hn => ?_⟩
  · simp [confusionActivate, hypnotizingActivate, hv]
  · simp [confusionActivate, hypnotizingActivate, hv, hs]
  · subst hn
    simp [confusionActivate, hypnotizingActivate, hv, isSameActor]

/-- Witness for `confusion_hypnosis_check_order`: an unseen tile on which the
consumer itself stands fails with the not-visible message for both scrolls. -/
theorem confusion_hypnosis_check_order_witness :
    (confusionActivate 10 ⟨3, .hostile⟩ (some ⟨3, .hostile⟩) (fun _ _ => false)
        4 4 [9] 9).err =
        some "You cannot target an area that you cannot see." ∧
      (hypnotizingActivate 7 ⟨3, .hostile⟩ (some ⟨3, .hostile⟩) (fun _ _ => false)
        4 4 [9] 9).err =
        some "You cannot target an area that you cannot see." := by
  have h := confusion_hypnosis_check_order 10 ⟨3, .hostile⟩ (some ⟨3, .hostile⟩)
    (fun _ _ => false) 4 4 [9] 9
  have h7 := confusion_hypnosis_check_order 7 ⟨3, .hostile⟩ (some ⟨3, .hostile⟩)
    (fun _ _ => false) 4 4 [9] 9
  exact ⟨(h.1 rfl).1, (h7.1 rfl).2⟩

/-- C7, counterexample to the claim as stated: against a defender with 1 hp,
power 5 versus defense 2 gives damage 3, yet the hp drops only to 0 (the
spec's own hp invariant clamps at zero), a decrease of 1, not of 3. -/
theorem melee_clamp_counterexample :
    (meleePerform ⟨30, 30, 5, 1⟩ (some ⟨1, 10, 3, 2⟩)).1 =
        some (⟨0, 10, 3, 2⟩ : MFighter) ∧
      (5 : Int) - 2 = 3 ∧ (3 : Int) > 0 ∧ (1 : Int) - 0 ≠ 3 := by
  decide

/-- C7 (amended): no target raises `Impossible`; damage is power minus
defense; positive damage sets the defender's hp to `hp - damage` clamped into
`[0, max_hp]` - a decrease of exactly `damage` whenever `damage ≤ hp` and
`hp ≤ max_hp` - and logs a hit message; nonpositive damage leaves hp
unchanged, logs a no-damage message, and raises nothing. -/
theorem melee_perform_characterization (attacker : MFighter)
    (target? : Option MFighter) :
    (target? = none →
      meleePerform attacker target? = (none, [], some "Nothing to attack.")) ∧
    (∀ target, target? = some target →
      (attacker.power - target.defense > 0 →
        meleePerform attacker target? =
          (some { target with
              hp := setHp (target.hp - (attacker.power - target.defense))
                target.maxHp },
            [.hit (attacker.power - target.defense)], none) ∧
        (attacker.power - target.defense ≤ target.hp → target.hp ≤ target.maxHp →
          ((meleePerform attacker target?).1.map MFighter.hp) =
            some (target.hp - (attacker.power - target.defense)))) ∧
      (attacker.power - target.defense ≤ 0 →
        meleePerform attacker target? = (some target, [.noDamage], none))) := by
  refine ⟨fun hn => ?_, fun target ht => ?_⟩
  · subst hn; rfl
  · subst ht
    constructor
    · intro hpos
      have heq : meleePerform attacker (some target) =
          (some { target with
              hp := setHp (target.hp - (attacker.power - target.defense))
                target.maxHp },
            [.hit (attacker.power - target.defense)], none) := by
        simp [meleePerform, hpos]
      refine ⟨heq, fun hle hinv => ?_⟩
      rw [heq]
      show some (setHp (target.hp - (attacker.power - target.defense))
        target.maxHp) = _
      congr 1
      simp only [setHp]
      omega
    · intro hnonpos
      simp [meleePerform, Int.not_lt.mpr hnonpos]

/-- Witness for `melee_perform_characterization`: power 5 against defense 2
and 10 hp deals exactly 3. -/
theorem melee_perform_characterization_witness :
    (meleePerform ⟨30, 30, 5, 1⟩ (some ⟨10, 10, 3, 2⟩)).1.map MFighter.hp =
      some 7 := by
  have h := melee_perform_characterization ⟨30, 30, 5, 1⟩ (some ⟨10, 10, 3, 2⟩)
  have h2 := ((h.2 ⟨10, 10, 3, 2⟩ rfl).1 (by decide)).2 (by decide) (by decide)
  simpa using h2

/-- C3 fails on the code: the loop enumerates `set(actors) - {player}`, whose
order is the set's hash-determined one, not a function of the world state.
Two enumerations of the same two-actor registry - both permutations of it, as
any set enumeration is - invoke the AIs in different orders. -/
theorem enemy_turn_order_depends_on_set_order :
    (List.reverse [(⟨1, some (.acts 1)⟩ : EActor), ⟨2, some (.acts 2)⟩]).Perm
        [(⟨1, some (.acts 1)⟩ : EActor), ⟨2, some (.acts 2)⟩] ∧
      enemyTurnOrder [⟨1, some (.acts 1)⟩, ⟨2, some (.acts 2)⟩] 0 id ≠
        enemyTurnOrder [⟨1, some (.acts 1)⟩, ⟨2, some (.acts 2)⟩] 0
          List.reverse := by
  constructor
  · exact List.reverse_perm _
  · decide

/-- C9: the turn loop swallows exactly `Impossible`, per actor: when no actor
raises anything else, every acting actor's effect is produced in order and
nothing propagates; the first actor raising a non-`Impossible` exception
makes it propagate, the effects being exactly those of the actors before
it. -/
theorem handle_enemy_turns_isolation (l : List EActor) :
    ((∀ a ∈ l, raisesOther a = false) →
      handleEnemyTurns l = (aiEffects l, none)) ∧
    (∀ l₁ a l₂ m, l = l₁ ++ a :: l₂ →
      a.ai = some (.raises (.other m)) →
      (∀ b ∈ l₁, raisesOther b = false) →
      handleEnemyTurns l = (aiEffects l₁, some (.other m))) := by
  constructor
  · intro hno
    induction l with
    | nil => rfl
    | cons a rest ih =>
      have ha := hno a (by simp)
      have hrest := ih (fun b hb => hno b (by simp [hb]))
      match hai : a.ai with
      | none => simpa [handleEnemyTurns, aiEffects, hai] using hrest
      | some (.acts e) =>
        simp only [handleEnemyTurns, aiEffects, hai, List.filterMap_cons]
        simp only [aiEffects] at hrest
        simp [hrest]
      | some (.raises (.impossible msg)) =>
        simpa [handleEnemyTurns, aiEffects, hai] using hrest
      | some (.raises (.other msg)) =>
        rw [raisesOther, hai] at ha
        exact absurd ha (by simp)
  · intro l₁
    induction l₁ generalizing l with
    | nil =>
      intro a l₂ m hl ha _
      subst hl
      simp [handleEnemyTurns, ha, aiEffects]
    | cons b rest ih =>
      intro a l₂ m hl ha hclean
      subst hl
      have hb := hclean b (by simp)
      have hrest := ih (l := rest ++ a :: l₂) a l₂ m rfl ha
        (fun c hc => hclean c (by simp [hc]))
      match hai : b.ai with
      | none => simpa [handleEnemyTurns, aiEffects, hai] using hrest
      | some (.acts e) =>
        simp only [List.cons_append, handleEnemyTurns, hai, List.append_eq]
        rw [hrest]
        simp [aiEffects, hai]
      | some (.raises (.impossible msg)) =>
        simpa [handleEnemyTurns, aiEffects, hai] using hrest
      | some (.raises (.other msg)) =>
        rw [raisesOther, hai] at hb
        exact absurd hb (by simp)

/-- Witness for `handle_enemy_turns_isolation`: an `Impossible` in the middle
is discarded and the last actor still acts; an unexpected exception instead
aborts before the last actor. -/
theorem handle_enemy_turns_isolation_witness :
    handleEnemyTurns [⟨1, some (.acts 10)⟩,
        ⟨2, some (.raises (.impossible "blocked"))⟩, ⟨3, some (.acts 30)⟩] =
      ([10, 30], none) ∧
    handleEnemyTurns [⟨1, some (.acts 10)⟩,
        ⟨2, some (.raises (.other "boom"))⟩, ⟨3, some (.acts 30)⟩] =
      ([10], some (.other "boom")) := by
  constructor
  · exact (handle_enemy_turns_isolation [⟨1, some (.acts 10)⟩,
      ⟨2, some (.raises (.impossible "blocked"))⟩,
      ⟨3, some (.acts 30)⟩]).1 (by decide)
  · exact (handle_enemy_turns_isolation [⟨1, some (.acts 10)⟩,
      ⟨2, some (.raises (.other "boom"))⟩, ⟨3, some (.acts 30)⟩]).2
      [⟨1, some (.acts 10)⟩] ⟨2, some (.raises (.other "boom"))⟩
      [⟨3, some (.acts 30)⟩] "boom" rfl rfl (by decide)

/-- `List.find?` returns the first element satisfying the predicate: the list
splits at it, everything before failing the predicate. -/
theorem find?_first_split {α : Type} (p : α → Bool) (l : List α) (a : α)
    (h : l.find? p = some a) :
    ∃ l₁ l₂, l = l₁ ++ a :: l₂ ∧ p a = true ∧ ∀ b ∈ l₁, p b = false := by
  induction l with
  | nil => simp at h
  | cons x xs ih =>
    by_cases hx : p x
    · rw [List.find?_cons_of_pos _ hx] at h
      obtain rfl : x = a := by injection h
      exact ⟨[], xs, rfl, hx, by simp⟩
    · rw [List.find?_cons_of_neg _ (by simpa using hx)] at h
      obtain ⟨l₁, l₂, rfl, hpa, hl₁⟩ := ih h
      refine ⟨x :: l₁, l₂, rfl, hpa, ?_⟩
      intro b hb
      rcases List.mem_cons.1 hb with rfl | hb
      · simpa using hx
      · exact hl₁ b hb

/-- C5: with an item at the actor's tile and a strictly under-capacity
inventory, the first matching map item is moved into the inventory (size up
by one, map size down by one); with an item there but the inventory at
capacity, `Impossible` and nothing changes; with no item there,
`Impossible`. -/
theorem pickup_perform_characterization (ax ay : Int) (st : PickupState) :
    ((∀ it ∈ st.mapItems, ¬(it.x = ax ∧ it.y = ay)) →
      pickupPerform ax ay st = (st, some "There is nothing here to pick up.")) ∧
    ((∃ it ∈ st.mapItems, it.x = ax ∧ it.y = ay) →
      (st.invItems.length = st.capacity →
        pickupPerform ax ay st = (st, some "Your inventory is full.")) ∧
      (st.invItems.length < st.capacity →
        (pickupPerform ax ay st).2 = none ∧
        (pickupPerform ax ay st).1.invItems.length = st.invItems.length + 1 ∧
        (pickupPerform ax ay st).1.mapItems.length + 1 = st.mapItems.length ∧
        (pickupPerform ax ay st).1.capacity = st.capacity ∧
        ∃ first l₁ l₂, st.mapItems = l₁ ++ first :: l₂ ∧
          first.x = ax ∧ first.y = ay ∧
          (∀ b ∈ l₁, ¬(b.x = ax ∧ b.y = ay)) ∧
          (pickupPerform ax ay st).1.invItems = st.invItems ++ [first.id] ∧
          (pickupPerform ax ay st).1.mapItems = st.mapItems.erase first)) := by
  constructor
  · intro hnone
    have hfind : st.mapItems.find?
        (fun it => decide (ax = it.x) && decide (ay = it.y)) = none := by
      rw [List.find?_eq_none]
      intro it hit
      have := hnone it hit
      simp only [Bool.and_eq_true, decide_eq_true_eq]
      tauto
    simp [pickupPerform, hfind]
  · intro hsome
    have hne : st.mapItems.find?
        (fun it => decide (ax = it.x) && decide (ay = it.y)) ≠ none := by
      rw [Ne, List.find?_eq_none]
      push_neg
      obtain ⟨it, hit, hx, hy⟩ := hsome
      exact ⟨it, hit, by simp [hx, hy]⟩
    obtain ⟨item, hfind⟩ := Option.ne_none_iff_exists'.1 hne
    have hmem := List.mem_of_find?_eq_some hfind
    obtain ⟨l₁, l₂, hsplit, hpa, hl₁⟩ := find?_first_split _ _ _ hfind
    have hxy : item.x = ax ∧ item.y = ay := by
      simp only [Bool.and_eq_true, decide_eq_true_eq] at hpa
      exact ⟨hpa.1.symm, hpa.2.symm⟩
    constructor
    · intro hfull
      simp [pickupPerform, hfind, hfull.symm.le]
    · intro hroom
      have hnotfull : ¬(st.invItems.length ≥ st.capacity) := by omega
      have heq : pickupPerform ax ay st =
          ({ st with
              mapItems := st.mapItems.erase item
              invItems := st.invItems ++ [item.id] }, none) := by
        simp [pickupPerform, hfind, hnotfull]
      rw [heq]
      refine ⟨rfl, by simp, ?_, rfl, item, l₁, l₂, hsplit, hxy.1, hxy.2, ?_, rfl, rfl⟩
      · have h1 := List.length_erase_of_mem hmem
        have h2 := List.length_pos_of_mem hmem
        simp only [h1]
        omega
      · intro b hb hcon
        have := hl₁ b hb
        simp [hcon.1, hcon.2] at this

/-- Witness for `pickup_perform_characterization`: one matching item on the
tile, inventory 1 of capacity 3. -/
theorem pickup_perform_characterization_witness :
    (pickupPerform 2 3 ⟨[⟨5, 2, 3⟩], [9], 3⟩).2 = none ∧
      (pickupPerform 2 3 ⟨[⟨5, 2, 3⟩], [9], 3⟩).1.invItems.length = 2 := by
  have h := (pickup_perform_characterization 2 3 ⟨[⟨5, 2, 3⟩], [9], 3⟩).2
    ⟨⟨5, 2, 3⟩, by simp, rfl, rfl⟩
  exact ⟨(h.2 (by decide)).1, (h.2 (by decide)).2.1⟩

/-- C2: with `speed` 2 under an active boost and 1 otherwise,
`max_valid_step` is the length of the unblocked prefix of steps (the scan
stops at the first blocked step); zero means `Impossible` with the mover
untouched, otherwise the mover is displaced by `(dx, dy) * max_valid_step`
and an active boost's counter is decremented by exactly 1. -/
theorem movement_perform_characterization (env : MoveEnv) (m : Mover)
    (dx dy : Int) (speed k : Nat)
    (hspeed : speed = if m.isSpeeded then 2 else 1)
    (hk : k = maxValidStep env m dx dy speed) :
    (k ≤ speed ∧
      (∀ i, 1 ≤ i → i ≤ k → stepBlocked env m dx dy i = false) ∧
      (k < speed → stepBlocked env m dx dy (k + 1) = true)) ∧
    (k = 0 → movementPerform env m dx dy = (m, some "That way is blocked.")) ∧
    (k ≠ 0 →
      (movementPerform env m dx dy).2 = none ∧
      (movementPerform env m dx dy).1.x = m.x + dx * (k : Int) ∧
      (movementPerform env m dx dy).1.y = m.y + dy * (k : Int) ∧
      (m.isSpeeded = true →
        (movementPerform env m dx dy).1.speedTurnsRemaining =
          m.speedTurnsRemaining - 1) ∧
      (m.isSpeeded = false →
        (movementPerform env m dx dy).1.isSpeeded = false ∧
        (movementPerform env m dx dy).1.speedTurnsRemaining =
          m.speedTurnsRemaining)) := by
  have hr1 : (List.range 1).map (· + 1) = [1] := rfl
  have hr2 : (List.range 2).map (· + 1) = [1, 2] := rfl
  by_cases hs : m.isSpeeded
  · subst hspeed
    rw [if_pos hs] at hk ⊢
    by_cases b1 : stepBlocked env m dx dy 1
    · have hk0 : k = 0 := by
        rw [hk, maxValidStep, hr2]
        simp [scanSteps, b1]
      subst hk0
      refine ⟨⟨by omega, fun i h1 h2 => absurd h2 (by omega), fun _ => by simpa using b1⟩,
        fun _ => ?_, fun h0 => absurd rfl h0⟩
      rw [movementPerform]
      rw [if_pos hs, ← hk]
      simp
    · have b1f : stepBlocked env m dx dy 1 = false := by simpa using b1
      by_cases b2 : stepBlocked env m dx dy 2
      · have hk1 : k = 1 := by
          rw [hk, maxValidStep, hr2]
          simp [scanSteps, b1f, b2]
        subst hk1
        refine ⟨⟨by decide, fun i h1 h2 => ?_, fun _ => by simpa using b2⟩,
          fun h0 => absurd h0 (by decide), fun _ => ?_⟩
        · have : i = 1 := by omega
          subst this
          exact b1f
        · rw [movementPerform, if_pos hs, ← hk]
          simp only [if_neg (by decide : ¬(1 = 0))]
          rw [if_pos hs]
          refine ⟨trivial, ?_, ?_, fun _ => ?_, fun hf => absurd hs (by simp [hf])⟩ <;>
            split <;> rfl
      · have b2f : stepBlocked env m dx dy 2 = false := by simpa using b2
        have hk2 : k = 2 := by
          rw [hk, maxValidStep, hr2]
          simp [scanSteps, b1f, b2f]
        subst hk2
        refine ⟨⟨by decide, fun i h1 h2 => ?_, fun hlt => absurd hlt (by decide)⟩,
          fun h0 => absurd h0 (by decide), fun _ => ?_⟩
        · interval_cases i
          · exact b1f
          · exact b2f
        · rw [movementPerform, if_pos hs, ← hk]
          simp only [if_neg (by decide : ¬(2 = 0))]
          rw [if_pos hs]
          refine ⟨trivial, ?_, ?_, fun _ => ?_, fun hf => absurd hs (by simp [hf])⟩ <;>
            split <;> rfl
  · have hsf : m.isSpeeded = false := by simpa using hs
    subst hspeed
    rw [if_neg hs] at hk ⊢
    by_cases b1 : stepBlocked env m dx dy 1
    · have hk0 : k = 0 := by
        rw [hk, maxValidStep, hr1]
        simp [scanSteps, b1]
      subst hk0
      refine ⟨⟨by omega, fun i h1 h2 => absurd h2 (by omega), fun _ => by simpa using b1⟩,
        fun _ => ?_, fun h0 => absurd rfl h0⟩
      rw [movementPerform, if_neg hs, ← hk]
      simp
    · have b1f : stepBlocked env m dx dy 1 = false := by simpa using b1
      have hk1 : k = 1 := by
        rw [hk, maxValidStep, hr1]
        simp [scanSteps, b1f]
      subst hk1
      refine ⟨⟨by decide, fun i h1 h2 => ?_, fun hlt => absurd hlt (by decide)⟩,
        fun h0 => absurd h0 (by decide), fun _ => ?_⟩
      · have : i = 1 := by omega
        subst this
        exact b1f
      · rw [movementPerform, if_neg hs, ← hk]
        simp only [if_neg (by decide : ¬(1 = 0))]
        exact ⟨by simp [hsf], by simp [hsf], by simp [hsf],
          fun ht => absurd ht (by simp [hsf]), fun _ => by simp [hsf]⟩

/-- Witness for `movement_perform_characterization`: a boosted mover on an
open map advances two tiles and its counter drops from 5 to 4. -/
theorem movement_perform_characterization_witness :
    (movementPerform ⟨fun _ _ => true, fun _ _ => true, fun _ _ => false⟩
        ⟨0, 0, true, 5⟩ 1 0).1.x = 2 ∧
      (movementPerform ⟨fun _ _ => true, fun _ _ => true, fun _ _ => false⟩
        ⟨0, 0, true, 5⟩ 1 0).1.speedTurnsRemaining = 4 := by
  have h := movement_perform_characterization
    ⟨fun _ _ => true, fun _ _ => true, fun _ _ => false⟩ ⟨0, 0, true, 5⟩ 1 0 2 2
    rfl rfl
  obtain ⟨-, -, h3⟩ := h
  obtain ⟨-, hx, -, hturns, -⟩ := h3 (by omega)
  exact ⟨by simpa using hx, by simpa using hturns rfl⟩

/-- C4: at a visible target tile with a nonnegative radius, every actor with
squared distance at most `radius^2` from the tile takes the damage (through
the clamping hp setter) and every other actor is untouched; with no actor in
range the activation raises `Impossible` and the inventory is unchanged; with
at least one actor in range the item is consumed exactly once. -/
theorem fireball_activate_characterization (damage radius : Int)
    (vis inBounds : Int → Int → Bool) (tx ty : Int) (itemId : Nat)
    (st : FireballState) (hrad : 0 ≤ radius) (hvis : vis tx ty = true)
    (hmem : itemId ∈ st.inventory) :
    (fireballActivate damage radius vis inBounds tx ty itemId st).1.actors =
      st.actors.map (fun a =>
        if dist2 a.x a.y tx ty ≤ radius ^ 2 then takeDamage damage a else a) ∧
    ((∀ a ∈ st.actors, ¬ dist2 a.x a.y tx ty ≤ radius ^ 2) →
      (fireballActivate damage radius vis inBounds tx ty itemId st).2 =
          some "There are no targets in the radius." ∧
        (fireballActivate damage radius vis inBounds tx ty itemId st).1.inventory =
          st.inventory) ∧
    ((∃ a ∈ st.actors, dist2 a.x a.y tx ty ≤ radius ^ 2) →
      (fireballActivate damage radius vis inBounds tx ty itemId st).2 = none ∧
        (fireballActivate damage radius vis inBounds tx ty itemId st).1.inventory.length
          + 1 = st.inventory.length) := by
  have hfun : ∀ a : GActor, fireballInRange radius tx ty a =
      decide (dist2 a.x a.y tx ty ≤ radius ^ 2) := by
    intro a
    simp [fireballInRange, hrad]
  refine ⟨?_, fun hnone => ?_, fun hsome => ?_⟩
  · rw [fireballActivate, if_neg (by simp [hvis])]
    simp only [hfun, apply_ite Prod.fst, apply_ite FireballState.actors, ite_self]
    refine List.map_congr_left ?_
    intro a _
    by_cases hd : dist2 a.x a.y tx ty ≤ radius ^ 2 <;> simp [hd]
  · have hany : st.actors.any (fireballInRange radius tx ty) = false := by
      rw [List.any_eq_false]
      intro a ha
      rw [hfun a]
      simpa using hnone a ha
    rw [fireballActivate, if_neg (by simp [hvis])]
    simp [hany]
  · have hany : st.actors.any (fireballInRange radius tx ty) = true := by
      rw [List.any_eq_true]
      obtain ⟨a, ha, hd⟩ := hsome
      exact ⟨a, ha, by rw [hfun a]; simpa using hd⟩
    rw [fireballActivate, if_neg (by simp [hvis])]
    simp only [hany, Bool.not_true, Bool.false_eq_true, if_false]
    refine ⟨by trivial, ?_⟩
    have h1 := List.length_erase_of_mem hmem
    have h2 := List.length_pos_of_mem hmem
    simp only [h1]
    omega

/-- Witness for `fireball_activate_characterization`: radius 1 at the origin,
one actor on the tile, one far away; the first is hurt, the item consumed. -/
theorem fireball_activate_characterization_witness :
    (fireballActivate 12 1 (fun _ _ => true) (fun _ _ => true) 0 0 5
        ⟨[⟨1, 0, 0, 10, 10⟩, ⟨2, 9, 9, 10, 10⟩], [5], none⟩).1.actors =
        [⟨1, 0, 0, 0, 10⟩, ⟨2, 9, 9, 10, 10⟩] ∧
      (fireballActivate 12 1 (fun _ _ => true) (fun _ _ => true) 0 0 5
        ⟨[⟨1, 0, 0, 10, 10⟩, ⟨2, 9, 9, 10, 10⟩], [5], none⟩).2 = none := by
  have h := fireball_activate_characterization 12 1 (fun _ _ => true)
    (fun _ _ => true) 0 0 5 ⟨[⟨1, 0, 0, 10, 10⟩, ⟨2, 9, 9, 10, 10⟩], [5], none⟩
    (by decide) rfl (by decide)
  refine ⟨?_, (h.2.2 ⟨⟨1, 0, 0, 10, 10⟩, by simp, by decide⟩).1⟩
  rw [h.1]
  decide

/-- C10: when fireball activation fails for lack of targets at a visible tile
whose clipped disc is nonempty, the `fireball_effect` render slot has
nevertheless been set to that disc on the failure path, with no hp change and
no consumption. -/
theorem fireball_effect_set_on_failure (damage radius : Int)
    (vis inBounds : Int → Int → Bool) (tx ty : Int) (itemId : Nat)
    (st : FireballState) (hvis : vis tx ty = true)
    (hmiss : st.actors.any (fireballInRange radius tx ty) = false)
    (hne : affectedTilesFor radius inBounds tx ty ≠ []) :
    (fireballActivate damage radius vis inBounds tx ty itemId st).2 =
        some "There are no targets in the radius." ∧
      (fireballActivate damage radius vis inBounds tx ty itemId st).1.fireballFx =
        some (affectedTilesFor radius inBounds tx ty) ∧
      (fireballActivate damage radius vis inBounds tx ty itemId st).1.actors =
        st.actors ∧
      (fireballActivate damage radius vis inBounds tx ty itemId st).1.inventory =
        st.inventory := by
  have hmap : st.actors.map (fun a =>
      if fireballInRange radius tx ty a then takeDamage damage a else a) =
      st.actors := by
    rw [List.any_eq_false] at hmiss
    conv_rhs => rw [← List.map_id st.actors]
    refine List.map_congr_left ?_
    intro a ha
    simp [hmiss a ha]
  have hemp : (affectedTilesFor radius inBounds tx ty).isEmpty = false := by
    cases haff : affectedTilesFor radius inBounds tx ty with
    | nil => exact absurd haff hne
    | cons a l => rfl
  rw [fireballActivate, if_neg (by simp [hvis])]
  simp [hmiss, hemp, hmap]

/-- Witness for `fireball_effect_set_on_failure`: an empty actor set, radius 1
at the origin of an unbounded map; the five-tile disc is recorded even though
the activation fails. -/
theorem fireball_effect_set_on_failure_witness :
    (fireballActivate 12 1 (fun _ _ => true) (fun _ _ => true) 0 0 5
        ⟨[], [5], none⟩).2 = some "There are no targets in the radius." ∧
      (fireballActivate 12 1 (fun _ _ => true) (fun _ _ => true) 0 0 5
        ⟨[], [5], none⟩).1.fireballFx =
        some [(-1, 0), (0, -1), (0, 0), (0, 1), (1, 0)] ∧
      (fireballActivate 12 1 (fun _ _ => true) (fun _ _ => true) 0 0 5
        ⟨[], [5], none⟩).1.inventory = [5] := by
  have h := fireball_effect_set_on_failure 12 1 (fun _ _ => true)
    (fun _ _ => true) 0 0 5 ⟨[], [5], none⟩ rfl rfl (by decide)
  refine ⟨h.1, ?_, h.2.2.2⟩
  rw [h.2.1]
  decide

/-- From a state holding a genuine target, the selection loop returns a
target at minimal distance among that target and the eligible remainder. -/
theorem lightningLoop_min (c : GActor) (vis : Int → Int → Bool) (R : Int)
    (l : List GActor) :
    ∀ (u t : GActor) (b : Int),
      lightningLoop c vis R l (some (u, dist2 c.x c.y u.x u.y)) = some (t, b) →
      b = dist2 c.x c.y t.x t.y ∧
      dist2 c.x c.y t.x t.y ≤ dist2 c.x c.y u.x u.y ∧
      ∀ a ∈ l, a.id ≠ c.id ∧ vis a.x a.y = true →
        dist2 c.x c.y t.x t.y ≤ dist2 c.x c.y a.x a.y := by
  induction l with
  | nil =>
    intro u t b h
    rw [lightningLoop] at h
    injection h with h
    injection h with h1 h2
    subst h1
    exact ⟨h2.symm, le_refl _, by simp⟩
  | cons a rest ih =>
    intro u t b h
    rw [lightningLoop] at h
    by_cases he : a.id ≠ c.id ∧ vis a.x a.y = true
    · rw [if_pos he] at h
      by_cases hc : dist2 c.x c.y a.x a.y < dist2 c.x c.y u.x u.y
      · rw [if_pos (by simpa [strikesCloser] using hc)] at h
        obtain ⟨hb, hle, hmin⟩ := ih a t b h
        refine ⟨hb, hle.trans hc.le, ?_⟩
        intro x hx hex
        rcases List.mem_cons.1 hx with rfl | hx
        · exact hle
        · exact hmin x hx hex
      · rw [if_neg (by simpa [strikesCloser] using hc)] at h
        obtain ⟨hb, hle, hmin⟩ := ih u t b h
        refine ⟨hb, hle, ?_⟩
        intro x hx hex
        rcases List.mem_cons.1 hx with rfl | hx
        · exact hle.trans (not_lt.1 hc)
        · exact hmin x hx hex
    · rw [if_neg he] at h
      obtain ⟨hb, hle, hmin⟩ := ih u t b h
      refine ⟨hb, hle, ?_⟩
      intro x hx hex
      rcases List.mem_cons.1 hx with rfl | hx
      · exact absurd hex he
      · exact hmin x hx hex

/-- From a state holding a genuine target, the returned target is either that
very one or the first along the list strictly beating every eligible actor
before it. -/
theorem lightningLoop_first (c : GActor) (vis : Int → Int → Bool) (R : Int)
    (l : List GActor) :
    ∀ (u t : GActor) (b : Int),
      lightningLoop c vis R l (some (u, dist2 c.x c.y u.x u.y)) = some (t, b) →
      t = u ∨
      ∃ l₁ l₂, l = l₁ ++ t :: l₂ ∧ (t.id ≠ c.id ∧ vis t.x t.y = true) ∧
        dist2 c.x c.y t.x t.y < dist2 c.x c.y u.x u.y ∧
        ∀ a ∈ l₁, a.id ≠ c.id ∧ vis a.x a.y = true →
          dist2 c.x c.y t.x t.y < dist2 c.x c.y a.x a.y := by
  induction l with
  | nil =>
    intro u t b h
    rw [lightningLoop] at h
    injection h with h
    injection h with h1 h2
    exact Or.inl h1.symm
  | cons a rest ih =>
    intro u t b h
    rw [lightningLoop] at h
    by_cases he : a.id ≠ c.id ∧ vis a.x a.y = true
    · rw [if_pos he] at h
      by_cases hc : dist2 c.x c.y a.x a.y < dist2 c.x c.y u.x u.y
      · rw [if_pos (by simpa [strikesCloser] using hc)] at h
        rcases ih a t b h with rfl | ⟨l₁, l₂, hsplit, hpos, hlt, hfm⟩
        · exact Or.inr ⟨[], rest, rfl, he, hc, by simp⟩
        · refine Or.inr ⟨a :: l₁, l₂, by simp [hsplit], hpos, hlt.trans hc, ?_⟩
          intro x hx hex
          rcases List.mem_cons.1 hx with rfl | hx
          · exact hlt
          · exact hfm x hx hex
      · rw [if_neg (by simpa [strikesCloser] using hc)] at h
        rcases ih u t b h with rfl | ⟨l₁, l₂, hsplit, hpos, hlt, hfm⟩
        · exact Or.inl rfl
        · refine Or.inr ⟨a :: l₁, l₂, by simp [hsplit], hpos, hlt, ?_⟩
          intro x hx hex
          rcases List.mem_cons.1 hx with rfl | hx
          · exact hlt.trans_le (not_lt.1 hc)
          · exact hfm x hx hex
    · rw [if_neg he] at h
      rcases ih u t b h with rfl | ⟨l₁, l₂, hsplit, hpos, hlt, hfm⟩
      · exact Or.inl rfl
      · refine Or.inr ⟨a :: l₁, l₂, by simp [hsplit], hpos, hlt, ?_⟩
        intro x hx hex
        rcases List.mem_cons.1 hx with rfl | hx
        · exact absurd hex he
        · exact hfm x hx hex

/-- With no eligible actor in the list, the selection loop ends empty-handed
from the initial state. -/
theorem lightningLoop_none_char (c : GActor) (vis : Int → Int → Bool)
    (R : Int) (l : List GActor)
    (hno : ∀ a ∈ l, ¬ lightningEligible c vis R a) :
    lightningLoop c vis R l none = none := by
  induction l with
  | nil => rw [lightningLoop]
  | cons a rest ih =>
    rw [lightningLoop]
    have hrest := ih (fun x hx => hno x (by simp [hx]))
    by_cases he : a.id ≠ c.id ∧ vis a.x a.y = true
    · rw [if_pos he]
      have hth : ¬ dist2 c.x c.y a.x a.y < (R + 1) ^ 2 := by
        intro hlt
        exact hno a (by simp) ⟨he.1, he.2, hlt⟩
      rw [if_neg (by simp [strikesCloser, hth])]
      exact hrest
    · rw [if_neg he]
      exact hrest

/-- From the initial state, a returned target is eligible, of minimal
distance among the eligible, and the first along the list among those
attaining that minimum. -/
theorem lightningLoop_some_char (c : GActor) (vis : Int → Int → Bool)
    (R : Int) (hR : 0 ≤ R) (l : List GActor) :
    ∀ (t : GActor) (b : Int),
      lightningLoop c vis R l none = some (t, b) →
      lightningEligible c vis R t ∧
      (∀ a ∈ l, lightningEligible c vis R a →
        dist2 c.x c.y t.x t.y ≤ dist2 c.x c.y a.x a.y) ∧
      ∃ l₁ l₂, l = l₁ ++ t :: l₂ ∧
        ∀ a ∈ l₁, lightningEligible c vis R a →
          dist2 c.x c.y t.x t.y < dist2 c.x c.y a.x a.y := by
  induction l with
  | nil =>
    intro t b h
    rw [lightningLoop] at h
    exact absurd h (by simp)
  | cons a rest ih =>
    intro t b h
    rw [lightningLoop] at h
    by_cases he : a.id ≠ c.id ∧ vis a.x a.y = true
    · rw [if_pos he] at h
      by_cases hc : strikesCloser R none (dist2 c.x c.y a.x a.y) = true
      · rw [if_pos hc] at h
        simp only [strikesCloser, decide_eq_true_eq] at hc
        have ha_elig : lightningEligible c vis R a := ⟨he.1, he.2, hc.2⟩
        obtain ⟨-, hle, hmin⟩ := lightningLoop_min c vis R rest a t b h
        have hfirst := lightningLoop_first c vis R rest a t b h
        have ht_elig : lightningEligible c vis R t := by
          rcases hfirst with rfl | ⟨l₁, l₂, hsplit, hpos, hlt, -⟩
          · exact ha_elig
          · exact ⟨hpos.1, hpos.2, hlt.trans hc.2⟩
        refine ⟨ht_elig, ?_, ?_⟩
        · intro x hx hex
          rcases List.mem_cons.1 hx with rfl | hx
          · exact hle
          · exact hmin x hx ⟨hex.1, hex.2.1⟩
        · rcases hfirst with rfl | ⟨l₁, l₂, hsplit, hpos, hlt, hfm⟩
          · exact ⟨[], rest, rfl, by simp⟩
          · refine ⟨a :: l₁, l₂, by simp [hsplit], ?_⟩
            intro x hx hex
            rcases List.mem_cons.1 hx with rfl | hx
            · exact hlt
            · exact hfm x hx ⟨hex.1, hex.2.1⟩
      · rw [if_neg hc] at h
        have hth : ¬ dist2 c.x c.y a.x a.y < (R + 1) ^ 2 := by
          simp only [strikesCloser, decide_eq_true_eq, not_and] at hc
          exact hc (by omega)
        have ha_not : ¬ lightningEligible c vis R a := fun hex => hth hex.2.2
        obtain ⟨ht, hmin, l₁, l₂, hsplit, hfm⟩ := ih t b h
        refine ⟨ht, ?_, a :: l₁, l₂, by simp [hsplit], ?_⟩
        · intro x hx hex
          rcases List.mem_cons.1 hx with rfl | hx
          · exact absurd hex ha_not
          · exact hmin x hx hex
        · intro x hx hex
          rcases List.mem_cons.1 hx with rfl | hx
          · exact absurd hex ha_not
          · exact hfm x hx hex
    · rw [if_neg he] at h
      have ha_not : ¬ lightningEligible c vis R a := fun hex => he ⟨hex.1, hex.2.1⟩
      obtain ⟨ht, hmin, l₁, l₂, hsplit, hfm⟩ := ih t b h
      refine ⟨ht, ?_, a :: l₁, l₂, by simp [hsplit], ?_⟩
      · intro x hx hex
        rcases List.mem_cons.1 hx with rfl | hx
        · exact absurd hex ha_not
        · exact hmin x hx hex
      · intro x hx hex
        rcases List.mem_cons.1 hx with rfl | hx
        · exact absurd hex ha_not
        · exact hfm x hx hex

/-- C1, counterexample to the claim as stated: with `maximum_range` 5 the
code strikes a visible actor at squared distance 29 - Euclidean distance
about 5.39, beyond `maximum_range` - because the initial threshold is
`maximum_range + 1.0` under a strict comparison; the claim instead demands
`Impossible` here. -/
theorem lightning_range_counterexample :
    dist2 0 0 5 2 = 29 ∧ (5 : Int) ^ 2 < 29 ∧
      (lightningActivate 20 5 ⟨0, 0, 0, 30, 30⟩ (fun _ _ => true)
        [⟨1, 5, 2, 10, 10⟩]).2.2 = none ∧
      (lightningActivate 20 5 ⟨0, 0, 0, 30, 30⟩ (fun _ _ => true)
        [⟨1, 5, 2, 10, 10⟩]).2.1 = some ⟨1, 5, 2, 10, 10⟩ ∧
      (lightningActivate 20 5 ⟨0, 0, 0, 30, 30⟩ (fun _ _ => true)
        [⟨1, 5, 2, 10, 10⟩]).1 = [⟨1, 5, 2, 0, 10⟩] := by
  decide

/-- C1 (amended): the struck actor is a visible non-consumer at Euclidean
distance strictly below `maximum_range + 1` (squared form), strictly closest
among such actors with ties to the first in the map's actor iteration order,
and only it is damaged; with no such actor the activation raises `Impossible`
and no actor changes. -/
theorem lightning_activate_characterization (damage maximumRange : Int)
    (consumer : GActor) (vis : Int → Int → Bool) (actors : List GActor)
    (hR : 0 ≤ maximumRange) :
    (∀ t, (lightningActivate damage maximumRange consumer vis actors).2.1 =
        some t →
      lightningEligible consumer vis maximumRange t ∧
      (∀ a ∈ actors, lightningEligible consumer vis maximumRange a →
        dist2 consumer.x consumer.y t.x t.y ≤
          dist2 consumer.x consumer.y a.x a.y) ∧
      (∃ l₁ l₂, actors = l₁ ++ t :: l₂ ∧
        ∀ a ∈ l₁, lightningEligible consumer vis maximumRange a →
          dist2 consumer.x consumer.y t.x t.y <
            dist2 consumer.x consumer.y a.x a.y) ∧
      (lightningActivate damage maximumRange consumer vis actors).2.2 = none ∧
      (lightningActivate damage maximumRange consumer vis actors).1 =
        actors.map (fun a => if a.id = t.id then takeDamage damage a else a)) ∧
    ((∀ a ∈ actors, ¬ lightningEligible consumer vis maximumRange a) →
      lightningActivate damage maximumRange consumer vis actors =
        (actors, none, some "No enemy is close enough to strike.")) := by
  constructor
  · intro t ht
    cases hloop : lightningLoop consumer vis maximumRange actors none with
    | none =>
      rw [lightningActivate, hloop] at ht
      exact absurd ht (by simp)
    | some p =>
      obtain ⟨u, b⟩ := p
      rw [lightningActivate, hloop] at ht
      have hut : u = t := by simpa using ht
      subst hut
      obtain ⟨helig, hmin, hsplit⟩ :=
        lightningLoop_some_char consumer vis maximumRange hR actors u b hloop
      refine ⟨helig, hmin, hsplit, ?_, ?_⟩ <;> rw [lightningActivate, hloop]
  · intro hno
    rw [lightningActivate, lightningLoop_none_char consumer vis maximumRange
      actors hno]

/-- Witness for `lightning_activate_characterization`: of two visible actors
the nearer one, first in iteration order, is struck and damaged. -/
theorem lightning_activate_characterization_witness :
    lightningEligible ⟨0, 0, 0, 30, 30⟩ (fun _ _ => true) 5 ⟨1, 3, 0, 10, 10⟩ ∧
      (lightningActivate 20 5 ⟨0, 0, 0, 30, 30⟩ (fun _ _ => true)
        [⟨1, 3, 0, 10, 10⟩, ⟨2, 4, 0, 10, 10⟩]).2.2 = none ∧
      (lightningActivate 20 5 ⟨0, 0, 0, 30, 30⟩ (fun _ _ => true)
        [⟨1, 3, 0, 10, 10⟩, ⟨2, 4, 0, 10, 10⟩]).1 =
        [⟨1, 3, 0, 0, 10⟩, ⟨2, 4, 0, 10, 10⟩] := by
  have h := (lightning_activate_characterization 20 5 ⟨0, 0, 0, 30, 30⟩
    (fun _ _ => true) [⟨1, 3, 0, 10, 10⟩, ⟨2, 4, 0, 10, 10⟩] (by decide)).1
    ⟨1, 3, 0, 10, 10⟩ (by decide)
  refine ⟨h.1, h.2.2.2.1, ?_⟩
  rw [h.2.2.2.2]
  decide

end PyRPG
